import Mathlib

/-!
Verification of the SAQ core: the beam search buffer
(src/saqlib/utils/buffer.hpp), the fast-scan cluster estimator and the
single-vector estimators (caq_estimator header), and the aligned memory
primitive (memory header).

Modelling conventions.
* `float` values are modelled as rationals: every buffer claim is about
  comparisons and exact binary-representable constants, and the estimator
  claims are about exact algebraic identities of the source formulas.
* `PID` (`uint32_t`) is modelled as `Nat`; the checked flag is bit 31,
  manipulated with the same shift/or operations as the source.
* `SearchBuffer::data_` physically holds `capacity_+1` slots; only the
  prefix `[0, size_)` is ever observed (binary_search, pop, next_id and
  copy_results all stay below `size_`, and the memmove in insert writes the
  overflowing element into the sentinel slot which is then ignored). The
  model therefore keeps exactly that observable prefix as a `List`, whose
  length plays the role of `size_`.
* Loops (`binary_search`, the cursor advance in `pop`) are written with an
  explicit fuel argument equal to a provable upper bound on the iteration
  count, so that all definitions reduce by `decide`/`rfl`.
-/

namespace saqlib

/-- Largest finite float, `std::numeric_limits<float>::max()`, exactly
`(2^24 - 1) * 2^104` (written as an explicit numeral so that it reduces in
the kernel; `fltMax_eq` below checks the value). -/
def fltMax : ℚ := mkRat 340282346638528859811704183484516925440 1

abbrev PID := Nat

/-- Candidate pair, `struct Candidate { PID id; float distance; }` from defines.hpp. -/
structure Candidate where
  id : PID
  distance : ℚ
  deriving DecidableEq, Repr

/-- Read of `data_[k]`: the model list holds the observable prefix
`[0, size_)`; out-of-range reads (never exercised under the source's
preconditions) yield a junk zero candidate. -/
def nth (l : List Candidate) (k : Nat) : Candidate := l.getD k ⟨0, 0⟩

/-- Model of `set_checked`: `data_id |= (1 << 31)`. -/
def setChecked (id : PID) : PID := id ||| (1 <<< 31)

/-- Model of `is_checked`: `static_cast<bool>(data_id >> 31)` (ids are `uint32_t`). -/
def isChecked (id : PID) : Bool := id >>> 31 != 0

/-- The beam buffer state: `capacity_`, the observable entries
`data_[0, size_)` (so `data.length` is `size_`), and the cursor `cur_`. -/
structure SearchBuffer where
  cap : Nat
  data : List Candidate
  cur : Nat
  deriving DecidableEq, Repr

namespace SearchBuffer

/-- Model of `SearchBuffer(capacity)`: allocates `capacity+1` physical slots,
`size_ = 0`, `cur_ = 0`. -/
def mkBuffer (capacity : Nat) : SearchBuffer := ⟨capacity, [], 0⟩

/-- The branchless ladder loop of `binary_search`:
`while (len > 1) { half = len >> 1; len -= half;
 lo += (data_[lo + half - 1].distance < dist) * half; }`.
The fuel is the initial `len`; each iteration shrinks `len` by at least one,
so that fuel is sufficient. -/
def bsLoop (data : List Candidate) (dist : ℚ) : Nat → Nat → Nat → Nat
  | 0, lo, _ => lo
  | fuel + 1, lo, len =>
    if 1 < len then
      let half := len / 2
      let lo' := if (nth data (lo + half - 1)).distance < dist then lo + half else lo
      bsLoop data dist fuel lo' (len - half)
    else lo

/-- Model of `binary_search(dist)`: the ladder loop followed by
`(lo < size_ && data_[lo].distance < dist) ? lo + 1 : lo`. -/
def binarySearch (data : List Candidate) (dist : ℚ) : Nat :=
  let lo := bsLoop data dist data.length 0 data.length
  if lo < data.length ∧ (nth data lo).distance < dist then lo + 1 else lo

/-- The memmove-plus-write of `insert`: shift `data_[i..size_)` right by one
slot and write the new candidate at index `i`. -/
def insertAt : List Candidate → Nat → Candidate → List Candidate
  | l, 0, c => c :: l
  | [], _ + 1, c => [c]
  | a :: l, i + 1, c => a :: insertAt l i c

/-- Model of `top_dist()`: `is_full() ? data_[size_-1].distance : float_max`. -/
def topDist (s : SearchBuffer) : ℚ :=
  if s.data.length = s.cap then (nth s.data (s.data.length - 1)).distance else fltMax

/-- Model of `is_full(float dist)`: `dist > top_dist()`. -/
def isFullD (s : SearchBuffer) (dist : ℚ) : Bool := topDist s < dist

/-- Model of `insert(data_id, dist)`: reject when `is_full(dist)`; otherwise shift-insert
at the binary-search position, bump `size_` unless already at capacity (the
`take s.cap` drops the element shifted into the sentinel slot in that case),
and set `cur_ = lo < cur_ ? lo : cur_`. -/
def insert (s : SearchBuffer) (id : PID) (dist : ℚ) : SearchBuffer :=
  if isFullD s dist then s
  else
    let lo := binarySearch s.data dist
    { cap := s.cap
      data := (insertAt s.data lo ⟨id, dist⟩).take s.cap
      cur := if lo < s.cur then lo else s.cur }

/-- The cursor advance loop of `pop`:
`while (cur_ < size_ && is_checked(data_[cur_].id)) ++cur_;`.
Fuel `data.length` bounds the number of increments. -/
def advanceCur (data : List Candidate) : Nat → Nat → Nat
  | 0, c => c
  | fuel + 1, c =>
    if c < data.length ∧ isChecked (nth data c).id then advanceCur data fuel (c + 1)
    else c

/-- Model of `pop()`: read `data_[cur_].id`, set its checked bit in place, advance the
cursor past checked entries, return the id read before marking. -/
def pop (s : SearchBuffer) : PID × SearchBuffer :=
  let c := nth s.data s.cur
  let data' := s.data.set s.cur ⟨setChecked c.id, c.distance⟩
  let cur' := advanceCur data' data'.length (s.cur + 1)
  (c.id, { s with data := data', cur := cur' })

/-- Model of `has_next()`: `cur_ < size_`. -/
def has_next (s : SearchBuffer) : Bool := s.cur < s.data.length

/-- Model of `next_id()`: `data_[cur_].id`. -/
def next_id (s : SearchBuffer) : PID := (nth s.data s.cur).id

/-- Model of `copy_results(knn)`: `knn[i] = data_[i].id` for `i < size_` — note the
source copies the stored id verbatim, with no masking. -/
def copy_results (s : SearchBuffer) : List PID := s.data.map (·.id)

/-- Model of `clear()`: `size_ = 0; cur_ = 0`. -/
def clear (s : SearchBuffer) : SearchBuffer := { s with data := [], cur := 0 }

/-- Model of `resize(new_size)`: sets `capacity_` and replaces `data_` with a fresh
value-initialized vector of `capacity_+1` candidates; `size_` and `cur_` are
left untouched, so the observable prefix keeps its length but now reads
zero-initialized slots. -/
def resize (s : SearchBuffer) (newCap : Nat) : SearchBuffer :=
  { cap := newCap, data := List.replicate s.data.length ⟨0, 0⟩, cur := s.cur }

end SearchBuffer

/-- All states reachable from a fresh buffer of capacity `cap` by `insert`
calls with valid ids (checked bit clear, i.e. `id < 2^31` for a `uint32_t`)
and `pop` calls honouring the `has_next` precondition. -/
inductive Reachable (cap : Nat) : SearchBuffer → Prop
  | init : Reachable cap (SearchBuffer.mkBuffer cap)
  | ins {s : SearchBuffer} (id : PID) (dist : ℚ) (hid : id < 2 ^ 31)
      (h : Reachable cap s) : Reachable cap (SearchBuffer.insert s id dist)
  | pop {s : SearchBuffer} (h : Reachable cap s)
      (hn : SearchBuffer.has_next s = true) : Reachable cap (SearchBuffer.pop s).2

/-- Entries `[0, size_)` are non-decreasing by distance. -/
def SortedByDist (l : List Candidate) : Prop :=
  ∀ i j, i < j → j < l.length → (nth l i).distance ≤ (nth l j).distance

/-- Every index strictly below `k` stores a distance strictly below `dist`. -/
def BelowDist (l : List Candidate) (dist : ℚ) (k : Nat) : Prop :=
  ∀ i, i < k → (nth l i).distance < dist

/-- Every index at or beyond `k` stores a distance at or above `dist`. -/
def AboveDist (l : List Candidate) (dist : ℚ) (k : Nat) : Prop :=
  ∀ i, k ≤ i → i < l.length → dist ≤ (nth l i).distance

/-- The buffer invariant: entries sorted by distance, `size_ ≤ capacity_`,
`cur_ ≤ size_`, every entry below the cursor checked, and the entry at the
cursor (when it exists) unchecked. -/
def Inv (s : SearchBuffer) : Prop :=
  SortedByDist s.data ∧
  s.data.length ≤ s.cap ∧
  s.cur ≤ s.data.length ∧
  (∀ i, i < s.cur → isChecked (nth s.data i).id = true) ∧
  (s.cur < s.data.length → isChecked (nth s.data s.cur).id = false)

/-! ### Vector helpers (Eigen expressions used by the estimators) -/

/-- Componentwise difference, `query_data_ - centroid`. -/
def vsub (a b : List ℚ) : List ℚ := List.zipWith (fun x y => x - y) a b

/-- Squared norm, `v.squaredNorm()` / `q · q`. -/
def sumSq (l : List ℚ) : ℚ := (l.map (fun x => x * x)).sum

/-- Dot product, `a.dot(b)`. -/
def dotQ (a b : List ℚ) : ℚ := (List.zipWith (fun x y => x * y) a b).sum

/-- Eigen `v.minCoeff()` (vectors handed to it are non-empty in the source). -/
def minCoeff (l : List ℚ) : ℚ := l.foldl min (l.headD 0)

/-- Eigen `v.maxCoeff()`. -/
def maxCoeff (l : List ℚ) : ℚ := l.foldl max (l.headD 0)

/-! ### Quantized cluster data and configuration -/

/-- Distance type, `enum class DistType { Any, L2Sqr, IP }` from defines.hpp. -/
inductive DistType where
  | Any
  | L2Sqr
  | IP
  deriving DecidableEq, Repr

/-- The two `SearcherConfig` fields the estimators read. -/
structure SearcherConfig where
  dist_type : DistType
  searcher_vars_bound_m : ℚ
  deriving Repr

/-- Constant `KFastScanSize` from defines.hpp. -/
def KFastScanSize : Nat := 32

/-- Read-only view of one cluster (`CAQClusterData` accessors used by the
estimators): centroid, per-block per-lane centroid-relative norms, packed
short codes per block, extended codes and rescale factor per vector. Codes
are byte lists; their layout is irrelevant to the claims proved here. -/
structure CAQClusterData where
  centroid : List ℚ
  factor_o_l2norm : Nat → Nat → ℚ
  short_code : Nat → List Nat
  long_code : Nat → List Nat
  long_factor_rescale : Nat → ℚ

/-- Placeholder cluster standing for the dangling `curr_cluster_` pointer
before the first `prepare` call. -/
def emptyCluster : CAQClusterData :=
  ⟨[], fun _ _ => 0, fun _ => [], fun _ => [], fun _ => 0⟩

/-- Modelled from the spec (§4.C): the `Lut` internals live in
`quantization/fastscan/lut.hpp`, which is not among the sources. Per the
spec, `prepare(q)` stores the query segment and `q_l2sqr = q·q`, and
`getQL2Sqr()` returns that value. The shuffle-based table computations
(`compFastIP`, `getExtIP`) are kept as abstract query/code-dependent
functions carried by the estimator (`fastIPFn`, `extIPFn` below). -/
structure Lut where
  qvec : List ℚ

/-- Modelled from the spec: `Lut::prepare` stores the (already
centroid-adjusted) query segment. -/
def Lut.prepare (_l : Lut) (q : List ℚ) : Lut := ⟨q⟩

/-- Modelled from the spec: `Lut::getQL2Sqr` returns `q·q` of the vector
given to `prepare`. -/
def Lut.getQL2Sqr (l : Lut) : ℚ := sumSq l.qvec

/-! ### Fast-scan cluster estimator (`CaqCluEstimator`) -/

/-- State of a `CaqCluEstimator<kDistType>` after construction. `query_data`
is the (rotator-applied) query stored by the constructor; `fastIPFn` and
`extIPFn` stand for the absent `Lut::compFastIP` / `Lut::getExtIP` bodies
(arguments: prepared LUT query, block norms / codes, lane). -/
structure CaqCluEstimator where
  kDistType : DistType
  num_dim_padded : Nat
  num_bits : Nat
  ex_bits : Nat
  cfg : SearcherConfig
  query_data : List ℚ
  without_ip_prune_bound : ℚ
  sq_delta : ℚ
  ip_q_c : ℚ
  q_l2sqr : ℚ
  lut : Lut
  curr_cluster : CAQClusterData
  fast_bitsum : Nat
  acc_bitsum : Nat
  fastIPFn : List ℚ → (Nat → ℚ) → List Nat → Nat → ℚ
  extIPFn : List ℚ → List Nat → ℚ → Nat → ℚ

namespace CaqCluEstimator

/-- The constructor body: derived fields `ex_bits_ = num_bits ? num_bits-1 : 0`
and `sq_delta_ = 2.0 / (1 << num_bits_)`; counters start at zero; the
`CHECK`s on distance type and fastscan layout are construction
preconditions. -/
def mkEstimator (kDT : DistType) (num_dim_pad num_bits : Nat)
    (cfg : SearcherConfig) (rotated_query : List ℚ)
    (fastIPFn : List ℚ → (Nat → ℚ) → List Nat → Nat → ℚ)
    (extIPFn : List ℚ → List Nat → ℚ → Nat → ℚ) : CaqCluEstimator :=
  { kDistType := kDT
    num_dim_padded := num_dim_pad
    num_bits := num_bits
    ex_bits := if num_bits = 0 then 0 else num_bits - 1
    cfg := cfg
    query_data := rotated_query
    without_ip_prune_bound := 0
    sq_delta := 2 / 2 ^ num_bits
    ip_q_c := 0
    q_l2sqr := 0
    lut := ⟨[]⟩
    curr_cluster := emptyCluster
    fast_bitsum := 0
    acc_bitsum := 0
    fastIPFn := fastIPFn
    extIPFn := extIPFn }

/-- Model of `isIpDist()`:
`kDistType == IP || (kDistType == Any && cfg_.dist_type == IP)`. -/
def isIpDist (e : CaqCluEstimator) : Bool :=
  e.kDistType == .IP || (e.kDistType == .Any && e.cfg.dist_type == .IP)

/-- Model of `setPruneBound(vars)`. -/
def setPruneBound (e : CaqCluEstimator) (vars : ℚ) : CaqCluEstimator :=
  { e with without_ip_prune_bound := vars * e.cfg.searcher_vars_bound_m }

/-- Model of `prepare(cur_cluster)`: store the cluster pointer; for IP also compute
`ip_q_c_ = query·centroid` and prepare the LUT on the query itself; for L2²
prepare the LUT on `query - centroid`; either way read `q_l2sqr_` back from
the LUT. -/
def prepare (e : CaqCluEstimator) (c : CAQClusterData) : CaqCluEstimator :=
  let e := { e with curr_cluster := c }
  if e.isIpDist then
    let lut' := e.lut.prepare e.query_data
    { e with ip_q_c := dotQ e.query_data c.centroid, lut := lut',
             q_l2sqr := lut'.getQL2Sqr }
  else
    let lut' := e.lut.prepare (vsub e.query_data c.centroid)
    { e with lut := lut', q_l2sqr := lut'.getQL2Sqr }

/-- Model of `varsEstDist(block_idx, fst_distances)`: early return when the output
pointer is null (`outWanted = false`); IP broadcasts `ip_q_c - bound`; L2²
computes `max(0, xᵢ² + (q_l2sqr - 2·bound))` for the 32 lanes. -/
def varsEstDist (e : CaqCluEstimator) (block_idx : Nat) (outWanted : Bool) :
    Option (List ℚ) :=
  if outWanted = false then none
  else if e.isIpDist then
    some (List.replicate KFastScanSize (e.ip_q_c - e.without_ip_prune_bound))
  else
    some ((List.range KFastScanSize).map fun j =>
      let x := e.curr_cluster.factor_o_l2norm block_idx j
      max 0 (x * x + (e.q_l2sqr - 2 * e.without_ip_prune_bound)))

/-- Model of `compFastDist(block_idx, fst_distances)`: delegate to `varsEstDist` when
`num_bits_ == 0`; otherwise run `lut_.compFastIP` over the block's codes,
return early when the output pointer is null — note that the
`fast_bitsum += KFastScanSize * num_dim_padded_` update sits after that
early return — else convert the raw inner products to distances
(IP: `raw·0.5 + ip_q_c`; L2²: `max(0, xᵢ² + (q_l2sqr - rawᵢ))`). -/
def compFastDist (e : CaqCluEstimator) (block_idx : Nat) (outWanted : Bool) :
    CaqCluEstimator × Option (List ℚ) :=
  if e.num_bits = 0 then (e, e.varsEstDist block_idx outWanted)
  else
    let x := fun j => e.curr_cluster.factor_o_l2norm block_idx j
    let raw := fun j => e.fastIPFn e.lut.qvec x (e.curr_cluster.short_code block_idx) j
    if outWanted = false then (e, none)
    else
      let vals :=
        if e.isIpDist then
          (List.range KFastScanSize).map fun j => raw j * mkRat 1 2 + e.ip_q_c
        else
          (List.range KFastScanSize).map fun j =>
            max 0 (x j * x j + (e.q_l2sqr - raw j))
      ({ e with fast_bitsum := e.fast_bitsum + KFastScanSize * e.num_dim_padded },
       some vals)

/-- Model of `compAccurateDist(vec_idx)`: `blk = vec/32`, `j = vec%32`,
`x = factor_o_l2norm(blk)[j]`; for `num_bits_ == 0` return `ip_q_c` (IP) or
`x² + q_l2sqr` (L2²); otherwise compute
`ip_o_q = rescale · getExtIP(long_code, sq_delta, j)`, bump `acc_bitsum`,
and return `ip_o_q + ip_q_c` (when `cfg_.dist_type == IP`) or
`x² + q_l2sqr - 2·ip_o_q`. -/
def compAccurateDist (e : CaqCluEstimator) (vec_idx : Nat) :
    CaqCluEstimator × ℚ :=
  let blk_idx := vec_idx / KFastScanSize
  let j := vec_idx % KFastScanSize
  let o_l2norm := e.curr_cluster.factor_o_l2norm blk_idx j
  let o_l2sqr := o_l2norm * o_l2norm
  if e.num_bits = 0 then
    (e, if e.isIpDist then e.ip_q_c else o_l2sqr + e.q_l2sqr)
  else
    let ip_o_q := e.curr_cluster.long_factor_rescale vec_idx *
      e.extIPFn e.lut.qvec (e.curr_cluster.long_code vec_idx) e.sq_delta j
    let e' := { e with acc_bitsum := e.acc_bitsum + e.num_dim_padded * (e.num_bits - 1) }
    (e', if e.cfg.dist_type = .IP then ip_o_q + e.ip_q_c
         else o_l2sqr + e.q_l2sqr - 2 * ip_o_q)

end CaqCluEstimator

/-! ### Single-vector estimator (`CaqEstimatorSingleImpl`, `CaqCluEstimatorSingle`) -/

/-- Modelled from the spec (§4.F): `utils::new_transpose_bin` lives in
`utils/tools.hpp`, which is not among the sources. Per the spec it
bit-transposes the 8-bit scalar-quantized query into a packed bitplane
layout of `D/64 · bits` 64-bit words: plane `b`, word `w` collects bit `b`
of the 64 codes `q[w·64 .. w·64+63]`. -/
def transposeBin (q : List Nat) (D bits : Nat) : List Nat :=
  (List.range (D / 64 * bits)).map fun w =>
    let plane := w / (D / 64)
    let word := w % (D / 64)
    (List.range 64).foldl
      (fun acc t => acc + (((q.getD (word * 64 + t) 0) >>> plane) % 2) <<< t) 0

/-- State of a `CaqEstimatorSingleImpl<kDistType>`. `sqrtFn` stands for the
host math library's `std::sqrt` (the spec leaves dense numeric routines to
the host); `ipFn` stands for the dispatched `IP_FUNC` selected by
`utils::get_IP_FUNC(ex_bits_)` (utils/tools.hpp, not among the sources). -/
structure SingleImpl where
  kDistType : DistType
  num_dim_padded : Nat
  num_bits : Nat
  ex_bits : Nat
  one_over_sqrtD : ℚ
  cfg : SearcherConfig
  caq_delta : ℚ
  curr_query : List ℚ := []
  query_sq : List Nat := []
  query_bin : List Nat := []
  q_delta : ℚ := 0
  q_vl : ℚ := 0
  q_vr : ℚ := 0
  ip_q_c : ℚ := 0
  delta : ℚ := 0
  sum_q : ℚ := 0
  q_l2sqr : ℚ := 0
  q_l2norm : ℚ := 0
  without_ip_prune_bound : ℚ := 0
  fast_bitsum : Nat := 0
  acc_bitsum : Nat := 0
  sqrtFn : ℚ → ℚ
  ipFn : List ℚ → List Nat → ℚ

namespace SingleImpl

/-- Model of `isIpDist()` of the single-vector implementation (same dispatch as the
fast-scan estimator). -/
def isIpDist (s : SingleImpl) : Bool :=
  s.kDistType == .IP || (s.kDistType == .Any && s.cfg.dist_type == .IP)

/-- Model of `CaqEstimatorSingleImpl::prepare(query)` (`kNumBits = 8`): store the
query; compute `q_l2sqr`, `q_l2norm = sqrt(q_l2sqr)`, `sum_q`, the coeff
range `[q_vl, q_vr]`, `delta = (q_vr - q_vl) / ((1 << 8) - 0.01)`;
scalar-quantize `query_sq[d] = uint16((q[d] - q_vl) / delta)` (a
truncating cast of a non-negative float, i.e. a floor); bit-transpose into
`query_bin` of `D/64 · 8` words. -/
def implPrepare (s : SingleImpl) (query : List ℚ) : SingleImpl :=
  let q_l2sqr := sumSq query
  let q_l2norm := s.sqrtFn q_l2sqr
  let sum_q := query.sum
  let q_vl := minCoeff query
  let q_vr := maxCoeff query
  let delta := (q_vr - q_vl) / (256 - mkRat 1 100)
  let query_sq := query.map fun x => ((x - q_vl) / delta).floor.toNat
  let query_bin := transposeBin query_sq s.num_dim_padded 8
  { s with curr_query := query, q_l2sqr := q_l2sqr, q_l2norm := q_l2norm,
           sum_q := sum_q, q_vl := q_vl, q_vr := q_vr, delta := delta,
           query_sq := query_sq, query_bin := query_bin }

end SingleImpl

/-- The message of the exception thrown on the IP path of
`CaqCluEstimatorSingle::prepare`. -/
def notImplementedMsg : String := "not implemented yet"

/-- State of a `CaqCluEstimatorSingle<kDistType>`: the base implementation
plus the rotator-applied query stored by the constructor and the current
cluster pointer. -/
structure SingleClu where
  impl : SingleImpl
  query_data : List ℚ
  curr_cluster : CAQClusterData

/-- Model of `CaqCluEstimatorSingle::prepare(cur_cluster)`: the cluster pointer is
stored first; the L2² path then prepares the base implementation on
`query_data_ - centroid`; the IP path is
`throw std::runtime_error("not implemented yet")` followed by dead code.
The second component carries the thrown message (`none` = normal return);
the first carries the object state after the call. -/
def SingleClu.prepare (s : SingleClu) (c : CAQClusterData) :
    SingleClu × Option String :=
  let s := { s with curr_cluster := c }
  if s.impl.isIpDist then (s, some notImplementedMsg)
  else ({ s with impl := s.impl.implPrepare (vsub s.query_data c.centroid) }, none)

/-! ### Aligned memory primitive (`align_mm`) -/

/-- Modelled from the spec: `utils::rd_up_to_multiple_of` (utils/tools.hpp,
not among the sources) rounds `n` up to a multiple of `a`. -/
def rd_up_to_multiple_of (n a : Nat) : Nat := (n + a - 1) / a * a

/-- Model of `align_mm<alignment, T>(size)`: allocates
`nbytes = rd_up_to_multiple_of(size * sizeof(T), alignment)` bytes and then
runs `std::memset(p, 0, size)` — zeroing `size` *bytes*, not
`size * sizeof(T)`. The model takes the allocator's uninitialized byte
contents as `mem` and returns the allocation size in bytes together with
the byte contents after the memset. -/
def align_mm (alignment sizeofT size : Nat) (mem : Nat → Nat) :
    Nat × (Nat → Nat) :=
  (rd_up_to_multiple_of (size * sizeofT) alignment,
   fun i => if i < size then 0 else mem i)

/-! ### Concrete states used by the witnesses and counterexamples -/

/-- Capacity-2 buffer holding one candidate `(5, 1.0)`. -/
def sIns1 : SearchBuffer := SearchBuffer.insert (SearchBuffer.mkBuffer 2) 5 1

/-- Buffer `sIns1` after one `pop` (the stored id now carries the checked bit). -/
def sPopped : SearchBuffer := (SearchBuffer.pop sIns1).2

/-- Full capacity-1 buffer holding `(1, 5.0)`. -/
def sFull1 : SearchBuffer := SearchBuffer.insert (SearchBuffer.mkBuffer 1) 1 5

/-- Spec scenario S3 prefix: capacity 4, inserts `(1,1.0) (2,2.0) (3,3.0)`. -/
def sS3a : SearchBuffer :=
  SearchBuffer.insert
    (SearchBuffer.insert (SearchBuffer.insert (SearchBuffer.mkBuffer 4) 1 1) 2 2) 3 3

/-- Scenario S3 after `pop` (returning 1) and `insert (4, 0.5)`. -/
def sS3b : SearchBuffer :=
  SearchBuffer.insert (SearchBuffer.pop sS3a).2 4 (mkRat 1 2)

/-- Capacity-2 buffer holding `(7, 1.0)`, used for the `resize` frame check. -/
def sC10 : SearchBuffer := SearchBuffer.insert (SearchBuffer.mkBuffer 2) 7 1

/-- Fast-scan estimator, L2² mode, `D = 64`, `B = 1`, fresh counters. -/
def estC6 : CaqCluEstimator :=
  CaqCluEstimator.mkEstimator .L2Sqr 64 1 ⟨.L2Sqr, 1⟩ []
    (fun _ _ _ _ => 0) (fun _ _ _ _ => 0)

/-- One-dimensional cluster with centroid `[1]` whose every stored
centroid-relative norm is `2`. -/
def cluC7 : CAQClusterData :=
  ⟨[1], fun _ _ => 2, fun _ => [], fun _ => [], fun _ => 0⟩

/-- Fast-scan estimator, L2² mode, `B = 0`, zero query `[0]`. -/
def estC7 : CaqCluEstimator :=
  CaqCluEstimator.mkEstimator .L2Sqr 64 0 ⟨.L2Sqr, 1⟩ [0]
    (fun _ _ _ _ => 0) (fun _ _ _ _ => 0)

/-- Two-dimensional cluster with centroid `[2, 1]` and stored norms `3`. -/
def cluC7b : CAQClusterData :=
  ⟨[2, 1], fun _ _ => 3, fun _ => [], fun _ => [], fun _ => 0⟩

/-- Fast-scan estimator, L2² mode, `B = 0`, zero query `[0, 0]`. -/
def estC7b : CaqCluEstimator :=
  CaqCluEstimator.mkEstimator .L2Sqr 64 0 ⟨.L2Sqr, 1⟩ [0, 0]
    (fun _ _ _ _ => 0) (fun _ _ _ _ => 0)

/-- Single-vector implementation state in IP mode. -/
def implIP : SingleImpl :=
  { kDistType := .IP, num_dim_padded := 64, num_bits := 1, ex_bits := 0,
    one_over_sqrtD := 1, cfg := ⟨.IP, 1⟩, caq_delta := 1,
    sqrtFn := fun x => x, ipFn := fun _ _ => 0 }

/-- Single-vector cluster estimator in IP mode. -/
def scluIP : SingleClu := ⟨implIP, [], emptyCluster⟩

end saqlib
namespace saqlib

/-! ## Helper lemmas: list access -/

theorem nth_nil (k : Nat) : nth [] k = ⟨0, 0⟩ := by
  simp [nth]

theorem nth_cons_zero (a : Candidate) (l : List Candidate) : nth (a :: l) 0 = a := rfl

theorem nth_cons_succ (a : Candidate) (l : List Candidate) (k : Nat) :
    nth (a :: l) (k + 1) = nth l k := rfl

theorem nth_default (l : List Candidate) (k : Nat) (h : l.length ≤ k) :
    nth l k = ⟨0, 0⟩ := by
  induction l generalizing k with
  | nil => simp [nth]
  | cons a t ih =>
    cases k with
    | zero => simp at h
    | succ m => rw [nth_cons_succ]; exact ih m (by simpa using h)

theorem length_insertAt (l : List Candidate) (i : Nat) (c : Candidate)
    (h : i ≤ l.length) : (SearchBuffer.insertAt l i c).length = l.length + 1 := by
  induction l generalizing i with
  | nil =>
    have hi : i = 0 := by simpa using h
    subst hi
    rfl
  | cons a t ih =>
    cases i with
    | zero => rfl
    | succ j =>
      have he : (SearchBuffer.insertAt (a :: t) (j + 1) c) = a :: SearchBuffer.insertAt t j c := rfl
      rw [he]
      simp only [List.length_cons]
      rw [ih j (by simpa using h)]

theorem nth_insertAt_lt (l : List Candidate) (i : Nat) (c : Candidate) (k : Nat)
    (hk : k < i) (hi : i ≤ l.length) :
    nth (SearchBuffer.insertAt l i c) k = nth l k := by
  induction l generalizing i k with
  | nil => simp at hi; omega
  | cons a t ih =>
    cases i with
    | zero => omega
    | succ j =>
      have he : (SearchBuffer.insertAt (a :: t) (j + 1) c) = a :: SearchBuffer.insertAt t j c := rfl
      rw [he]
      cases k with
      | zero => rfl
      | succ m =>
        rw [nth_cons_succ, nth_cons_succ]
        exact ih j m (by omega) (by simpa using hi)

theorem nth_insertAt_self (l : List Candidate) (i : Nat) (c : Candidate)
    (hi : i ≤ l.length) :
    nth (SearchBuffer.insertAt l i c) i = c := by
  induction l generalizing i with
  | nil =>
    have h0 : i = 0 := by simpa using hi
    subst h0
    rfl
  | cons a t ih =>
    cases i with
    | zero => rfl
    | succ j =>
      have he : (SearchBuffer.insertAt (a :: t) (j + 1) c) = a :: SearchBuffer.insertAt t j c := rfl
      rw [he, nth_cons_succ]
      exact ih j (by simpa using hi)

theorem nth_insertAt_gt (l : List Candidate) (i : Nat) (c : Candidate) (k : Nat)
    (hk : i < k) :
    nth (SearchBuffer.insertAt l i c) k = nth l (k - 1) := by
  induction l generalizing i k with
  | nil =>
    cases i with
    | zero =>
      cases k with
      | zero => omega
      | succ m =>
        show nth [c] (m + 1) = nth [] (m + 1 - 1)
        rw [nth_cons_succ]
        simp [nth]
    | succ j =>
      cases k with
      | zero => omega
      | succ m =>
        show nth [c] (m + 1) = nth [] (m + 1 - 1)
        rw [nth_cons_succ]
        simp [nth]
  | cons a t ih =>
    cases i with
    | zero =>
      cases k with
      | zero => omega
      | succ m =>
        show nth (c :: a :: t) (m + 1) = nth (a :: t) (m + 1 - 1)
        rw [nth_cons_succ]
        simp
    | succ j =>
      cases k with
      | zero => omega
      | succ m =>
        have he : (SearchBuffer.insertAt (a :: t) (j + 1) c) = a :: SearchBuffer.insertAt t j c := rfl
        rw [he, nth_cons_succ, ih j m (by omega)]
        cases m with
        | zero => omega
        | succ p =>
          show nth t (p + 1 - 1) = nth (a :: t) (p + 1 + 1 - 1)
          have h1 : p + 1 - 1 = p := rfl
          have h2 : p + 1 + 1 - 1 = p + 1 := rfl
          rw [h1, h2, nth_cons_succ]

theorem nth_take (l : List Candidate) (n k : Nat) (hk : k < n) :
    nth (l.take n) k = nth l k := by
  induction l generalizing n k with
  | nil => simp [nth]
  | cons a t ih =>
    cases n with
    | zero => omega
    | succ m =>
      rw [List.take_succ_cons]
      cases k with
      | zero => rfl
      | succ p => rw [nth_cons_succ, nth_cons_succ]; exact ih m p (by omega)

theorem nth_set_self (l : List Candidate) (i : Nat) (a : Candidate)
    (h : i < l.length) : nth (l.set i a) i = a := by
  induction l generalizing i with
  | nil => simp at h
  | cons b t ih =>
    cases i with
    | zero => rfl
    | succ j =>
      rw [List.set_cons_succ, nth_cons_succ]
      exact ih j (by simpa using h)

theorem nth_set_ne (l : List Candidate) (i : Nat) (a : Candidate) (k : Nat)
    (h : i ≠ k) : nth (l.set i a) k = nth l k := by
  induction l generalizing i k with
  | nil => simp
  | cons b t ih =>
    cases i with
    | zero =>
      cases k with
      | zero => omega
      | succ m => rw [List.set_cons_zero, nth_cons_succ, nth_cons_succ]
    | succ j =>
      cases k with
      | zero => rfl
      | succ m =>
        rw [List.set_cons_succ, nth_cons_succ, nth_cons_succ]
        exact ih j m (by omega)

/-! ## Helper lemmas: the checked bit -/

theorem isChecked_of_lt {id : PID} (h : id < 2 ^ 31) : isChecked id = false := by
  have hs : id >>> 31 = 0 := by
    rw [Nat.shiftRight_eq_div_pow]
    exact Nat.div_eq_of_lt h
  simp [isChecked, hs]

theorem isChecked_setChecked (id : PID) : isChecked (setChecked id) = true := by
  have h31 : (1 <<< 31 : Nat) = 2 ^ 31 := by decide
  have hbit : (setChecked id).testBit 31 = true := by
    rw [setChecked, h31, Nat.testBit_lor, Nat.testBit_two_pow_self]
    simp
  have hdm : setChecked id / 2 ^ 31 % 2 = 1 := by
    simpa [Nat.testBit_to_div_mod] using hbit
  have hs : setChecked id >>> 31 ≠ 0 := by
    rw [Nat.shiftRight_eq_div_pow]
    intro h0
    rw [h0] at hdm
    simp at hdm
  simp [isChecked, hs]

end saqlib
namespace saqlib

/-! ## Helper lemmas: sortedness and the branchless binary search -/

theorem sorted_le {l : List Candidate} (hs : SortedByDist l) {i j : Nat}
    (hij : i ≤ j) (hj : j < l.length) :
    (nth l i).distance ≤ (nth l j).distance := by
  rcases Nat.lt_or_ge i j with h | h
  · exact hs i j h hj
  · have : i = j := by omega
    subst this
    exact le_refl _

theorem aboveDist_mono {l : List Candidate} {dist : ℚ} {k k' : Nat}
    (hk : k ≤ k') (h : AboveDist l dist k) : AboveDist l dist k' :=
  fun i hi hlen => h i (le_trans hk hi) hlen

theorem bsLoop_spec {l : List Candidate} (dist : ℚ) (hs : SortedByDist l) :
    ∀ fuel len lo, len ≤ fuel → lo + len ≤ l.length →
      BelowDist l dist lo → AboveDist l dist (lo + len) →
      BelowDist l dist (SearchBuffer.bsLoop l dist fuel lo len) ∧
      AboveDist l dist (SearchBuffer.bsLoop l dist fuel lo len + 1) ∧
      SearchBuffer.bsLoop l dist fuel lo len ≤ l.length ∧
      (1 ≤ len → SearchBuffer.bsLoop l dist fuel lo len < l.length) := by
  intro fuel
  induction fuel with
  | zero =>
    intro len lo hf hlen hB hA
    have h0 : len = 0 := by omega
    subst h0
    rw [SearchBuffer.bsLoop]
    refine ⟨hB, aboveDist_mono (show lo + 0 ≤ lo + 1 by omega) hA, by omega, by omega⟩
  | succ fuel ih =>
    intro len lo hf hlen hB hA
    rw [SearchBuffer.bsLoop]
    by_cases hc : 1 < len
    · simp only [hc, if_true]
      by_cases hcmp : (nth l (lo + len / 2 - 1)).distance < dist
      · simp only [hcmp, if_true]
        have half_pos : 1 ≤ len / 2 := by omega
        have half_lt : len / 2 < len := by omega
        have hBnew : BelowDist l dist (lo + len / 2) := by
          intro i hi
          rcases Nat.lt_or_ge i lo with h | h
          · exact hB i h
          · calc (nth l i).distance
                ≤ (nth l (lo + len / 2 - 1)).distance :=
                  sorted_le hs (by omega) (by omega)
              _ < dist := hcmp
        have hAnew : AboveDist l dist (lo + len / 2 + (len - len / 2)) := by
          have hadd : lo + len / 2 + (len - len / 2) = lo + len := by omega
          rw [hadd]
          exact hA
        obtain ⟨ihB, ihA, ihle, ihlt⟩ :=
          ih (len - len / 2) (lo + len / 2) (by omega) (by omega) hBnew hAnew
        exact ⟨ihB, ihA, ihle, fun _ => ihlt (by omega)⟩
      · simp only [hcmp, if_false]
        have hAfrom : AboveDist l dist (lo + len / 2 - 1) := by
          intro i hi hilen
          calc dist ≤ (nth l (lo + len / 2 - 1)).distance := le_of_not_lt hcmp
            _ ≤ (nth l i).distance := sorted_le hs hi hilen
        obtain ⟨ihB, ihA, ihle, ihlt⟩ :=
          ih (len - len / 2) lo (by omega) (by omega) hB
            (aboveDist_mono (show lo + len / 2 - 1 ≤ lo + (len - len / 2) by omega) hAfrom)
        exact ⟨ihB, ihA, ihle, fun _ => ihlt (by omega)⟩
    · simp only [hc, if_false]
      refine ⟨hB, ?_, by omega, by omega⟩
      rcases Nat.lt_or_ge len 1 with h0 | h1
      · have h00 : len = 0 := by omega
        subst h00
        exact aboveDist_mono (show lo + 0 ≤ lo + 1 by omega) hA
      · have h11 : len = 1 := by omega
        subst h11
        exact hA

theorem binarySearch_spec {l : List Candidate} (dist : ℚ) (hs : SortedByDist l) :
    BelowDist l dist (SearchBuffer.binarySearch l dist) ∧
    AboveDist l dist (SearchBuffer.binarySearch l dist) ∧
    SearchBuffer.binarySearch l dist ≤ l.length := by
  have h0 := bsLoop_spec dist hs l.length l.length 0 (le_refl _)
    (by omega) (by intro i hi; exact absurd hi (by omega))
    (by intro i hi hlen; exact absurd hlen (by omega))
  set r0 := SearchBuffer.bsLoop l dist l.length 0 l.length with hr0
  obtain ⟨hB, hA1, hle, _⟩ := h0
  rw [SearchBuffer.binarySearch]
  by_cases hcond : r0 < l.length ∧ (nth l r0).distance < dist
  · rw [if_pos hcond]
    refine ⟨?_, hA1, by omega⟩
    intro i hi
    rcases Nat.lt_or_ge i r0 with h | h
    · exact hB i h
    · have : i = r0 := by omega
      subst this
      exact hcond.2
  · rw [if_neg hcond]
    refine ⟨hB, ?_, hle⟩
    intro i hi hilen
    rcases Nat.lt_or_ge i (r0 + 1) with h | h
    · have hir : i = r0 := by omega
      rw [hir] at hilen ⊢
      exact le_of_not_lt fun hlt => hcond ⟨hilen, hlt⟩
    · exact hA1 i h hilen

/-! ## Helper lemmas: the cursor advance loop -/

theorem advanceCur_ge (l : List Candidate) :
    ∀ fuel c, c ≤ SearchBuffer.advanceCur l fuel c := by
  intro fuel
  induction fuel with
  | zero => intro c; rw [SearchBuffer.advanceCur]
  | succ fuel ih =>
    intro c
    rw [SearchBuffer.advanceCur]
    by_cases hc : c < l.length ∧ isChecked (nth l c).id
    · rw [if_pos hc]
      exact le_trans (by omega) (ih (c + 1))
    · rw [if_neg hc]

theorem advanceCur_le (l : List Candidate) :
    ∀ fuel c, c ≤ l.length → SearchBuffer.advanceCur l fuel c ≤ l.length := by
  intro fuel
  induction fuel with
  | zero => intro c hc; rw [SearchBuffer.advanceCur]; exact hc
  | succ fuel ih =>
    intro c hc
    rw [SearchBuffer.advanceCur]
    by_cases hcnd : c < l.length ∧ isChecked (nth l c).id
    · rw [if_pos hcnd]
      exact ih (c + 1) (by omega)
    · rw [if_neg hcnd]
      exact hc

theorem advanceCur_checked (l : List Candidate) :
    ∀ fuel c i, c ≤ i → i < SearchBuffer.advanceCur l fuel c →
      isChecked (nth l i).id = true := by
  intro fuel
  induction fuel with
  | zero =>
    intro c i hci hir
    rw [SearchBuffer.advanceCur] at hir
    omega
  | succ fuel ih =>
    intro c i hci hir
    rw [SearchBuffer.advanceCur] at hir
    by_cases hcnd : c < l.length ∧ isChecked (nth l c).id
    · rw [if_pos hcnd] at hir
      rcases Nat.eq_or_lt_of_le hci with h | h
      · subst h
        exact hcnd.2
      · exact ih (c + 1) i (by omega) hir
    · rw [if_neg hcnd] at hir
      omega

theorem advanceCur_stop (l : List Candidate) :
    ∀ fuel c, l.length ≤ c + fuel →
      SearchBuffer.advanceCur l fuel c < l.length →
      isChecked (nth l (SearchBuffer.advanceCur l fuel c)).id = false := by
  intro fuel
  induction fuel with
  | zero =>
    intro c hfc hr
    rw [SearchBuffer.advanceCur] at hr ⊢
    omega
  | succ fuel ih =>
    intro c hfc hr
    rw [SearchBuffer.advanceCur] at hr ⊢
    by_cases hcnd : c < l.length ∧ isChecked (nth l c).id
    · rw [if_pos hcnd] at hr ⊢
      exact ih (c + 1) (by omega) hr
    · rw [if_neg hcnd] at hr ⊢
      rcases Bool.eq_false_or_eq_true (isChecked (nth l c).id) with h | h
      · exact absurd ⟨hr, h⟩ hcnd
      · exact h

end saqlib
namespace saqlib

/-! ## Invariant preservation -/

theorem inv_mkBuffer (cap : Nat) : Inv (SearchBuffer.mkBuffer cap) := by
  refine ⟨?_, ?_, ?_, ?_, ?_⟩
  · intro i j hij hj
    simp [SearchBuffer.mkBuffer] at hj
  · simp [SearchBuffer.mkBuffer]
  · simp [SearchBuffer.mkBuffer]
  · intro i hi
    simp [SearchBuffer.mkBuffer] at hi
  · intro hlt
    simp [SearchBuffer.mkBuffer] at hlt

theorem insert_cap (s : SearchBuffer) (id : PID) (dist : ℚ) :
    (s.insert id dist).cap = s.cap := by
  rw [SearchBuffer.insert]
  split
  · rfl
  · rfl

theorem insert_of_full (s : SearchBuffer) (id : PID) (dist : ℚ)
    (hf : s.isFullD dist = true) : s.insert id dist = s := by
  rw [SearchBuffer.insert, if_pos hf]

theorem insert_data_of_not_full (s : SearchBuffer) (id : PID) (dist : ℚ)
    (hf : ¬ s.isFullD dist = true) :
    (s.insert id dist).data =
      (SearchBuffer.insertAt s.data (SearchBuffer.binarySearch s.data dist)
        ⟨id, dist⟩).take s.cap := by
  rw [SearchBuffer.insert, if_neg hf]

theorem insert_cur_of_not_full (s : SearchBuffer) (id : PID) (dist : ℚ)
    (hf : ¬ s.isFullD dist = true) :
    (s.insert id dist).cur =
      if SearchBuffer.binarySearch s.data dist < s.cur then
        SearchBuffer.binarySearch s.data dist
      else s.cur := by
  rw [SearchBuffer.insert, if_neg hf]

theorem inv_insert (s : SearchBuffer) (id : PID) (dist : ℚ) (hid : id < 2 ^ 31)
    (h : Inv s) : Inv (s.insert id dist) := by
  obtain ⟨hs, hcap, hcur, hchk, hunchk⟩ := h
  by_cases hf : s.isFullD dist
  · rw [insert_of_full s id dist hf]
    exact ⟨hs, hcap, hcur, hchk, hunchk⟩
  · obtain ⟨hB, hA, hbsle⟩ := binarySearch_spec dist hs
    set lo := SearchBuffer.binarySearch s.data dist with hlo
    set L := s.data.length with hL
    set l1 := SearchBuffer.insertAt s.data lo ⟨id, dist⟩ with hl1
    have hlen1 : l1.length = L + 1 := length_insertAt _ _ _ hbsle
    have hdata : (s.insert id dist).data = l1.take s.cap :=
      insert_data_of_not_full s id dist hf
    have hcurq : (s.insert id dist).cur = if lo < s.cur then lo else s.cur :=
      insert_cur_of_not_full s id dist hf
    have hlen2 : (s.insert id dist).data.length = min s.cap (L + 1) := by
      rw [hdata, List.length_take, hlen1]
    -- read entries of the new buffer through insertAt
    have hread : ∀ k, k < min s.cap (L + 1) →
        nth (s.insert id dist).data k = nth l1 k := by
      intro k hk
      rw [hdata]
      exact nth_take _ _ _ (by omega)
    refine ⟨?_, ?_, ?_, ?_, ?_⟩
    · -- sortedness
      intro i j hij hj
      rw [hlen2] at hj
      have hi2 : i < min s.cap (L + 1) := by omega
      rw [hread i hi2, hread j hj]
      have hjL : j < L + 1 := by omega
      rcases Nat.lt_trichotomy j lo with hjlo | hjlo | hjlo
      · rw [nth_insertAt_lt _ _ _ _ hjlo hbsle,
          nth_insertAt_lt _ _ _ _ (by omega) hbsle]
        exact hs i j hij (by omega)
      · subst hjlo
        rw [nth_insertAt_self _ _ _ hbsle,
          nth_insertAt_lt _ _ _ _ hij hbsle]
        exact le_of_lt (hB i hij)
      · rw [nth_insertAt_gt _ _ _ _ hjlo]
        rcases Nat.lt_trichotomy i lo with hilo | hilo | hilo
        · rw [nth_insertAt_lt _ _ _ _ hilo hbsle]
          exact sorted_le hs (by omega) (by omega)
        · subst hilo
          rw [nth_insertAt_self _ _ _ hbsle]
          exact hA (j - 1) (by omega) (by omega)
        · rw [nth_insertAt_gt _ _ _ _ hilo]
          exact sorted_le hs (by omega) (by omega)
    · rw [hlen2, insert_cap]
      omega
    · rw [hlen2, hcurq]
      split
      · omega
      · omega
    · -- entries below the new cursor are checked
      intro i hi
      rw [hcurq] at hi
      have hilo : i < lo ∧ i < s.cur := by
        rcases Nat.lt_or_ge lo s.cur with hlc | hlc
        · rw [if_pos hlc] at hi
          omega
        · rw [if_neg (by omega)] at hi
          omega
      rw [hread i (by omega), nth_insertAt_lt _ _ _ _ hilo.1 hbsle]
      exact hchk i hilo.2
    · -- the entry at the new cursor is unchecked
      intro hlt
      rw [hlen2] at hlt
      rw [hcurq] at hlt ⊢
      rcases Nat.lt_or_ge lo s.cur with hlc | hlc
      · rw [if_pos hlc] at hlt ⊢
        rw [hread lo (by omega), nth_insertAt_self _ _ _ hbsle]
        exact isChecked_of_lt hid
      · rw [if_neg (by omega)] at hlt ⊢
        rcases Nat.eq_or_lt_of_le hlc with heq | hlt2
        · rw [hread s.cur (by omega), heq, nth_insertAt_self _ _ _ hbsle]
          exact isChecked_of_lt hid
        · rw [hread s.cur (by omega), nth_insertAt_lt _ _ _ _ hlt2 hbsle]
          exact hunchk (by omega)

theorem pop_facts (s : SearchBuffer) (h : Inv s) (hn : s.cur < s.data.length) :
    (s.pop).1 = s.next_id ∧
    isChecked (s.pop).1 = false ∧
    (∀ j, j < s.data.length → isChecked (nth s.data j).id = false →
      (nth s.data s.cur).distance ≤ (nth s.data j).distance) ∧
    (s.pop).2.data.length = s.data.length ∧
    nth (s.pop).2.data s.cur =
      ⟨setChecked (nth s.data s.cur).id, (nth s.data s.cur).distance⟩ ∧
    s.cur < (s.pop).2.cur ∧
    Inv (s.pop).2 := by
  obtain ⟨hs, hcap, hcur, hchk, hunchk⟩ := h
  set c0 := nth s.data s.cur with hc0
  set l' := s.data.set s.cur ⟨setChecked c0.id, c0.distance⟩ with hl'
  have hpop1 : (s.pop).1 = c0.id := rfl
  have hpopd : (s.pop).2.data = l' := rfl
  have hpopc : (s.pop).2.cur = SearchBuffer.advanceCur l' l'.length (s.cur + 1) := rfl
  have hlen' : l'.length = s.data.length := by
    rw [hl', List.length_set]
  have hdist' : ∀ k, (nth l' k).distance = (nth s.data k).distance := by
    intro k
    rcases eq_or_ne s.cur k with heq | hne
    · rw [← heq, hl', nth_set_self _ _ _ hn]
    · rw [hl', nth_set_ne _ _ _ _ hne]
  refine ⟨hpop1, ?_, ?_, ?_, ?_, ?_, ?_⟩
  · rw [hpop1]
    exact hunchk hn
  · intro j hj hjun
    rcases Nat.lt_or_ge j s.cur with hjc | hjc
    · rw [hchk j hjc] at hjun
      exact absurd hjun (by simp)
    · exact sorted_le hs hjc hj
  · rw [hpopd]
    exact hlen'
  · rw [hpopd, hl']
    exact nth_set_self _ _ _ hn
  · rw [hpopc]
    have := advanceCur_ge l' l'.length (s.cur + 1)
    omega
  · refine ⟨?_, ?_, ?_, ?_, ?_⟩
    · intro i j hij hj
      rw [hpopd] at hj ⊢
      rw [hdist' i, hdist' j]
      exact hs i j hij (by omega)
    · rw [hpopd, hlen']
      exact hcap
    · rw [hpopd, hpopc]
      exact advanceCur_le l' l'.length (s.cur + 1) (by omega)
    · intro i hi
      rw [hpopc] at hi
      rw [hpopd]
      rcases Nat.lt_trichotomy i s.cur with hic | hic | hic
      · rw [hl', nth_set_ne _ _ _ _ (by omega)]
        exact hchk i hic
      · subst hic
        rw [hl', nth_set_self _ _ _ hn]
        exact isChecked_setChecked c0.id
      · exact advanceCur_checked l' l'.length (s.cur + 1) i (by omega) hi
    · intro hlt
      rw [hpopd, hpopc] at hlt ⊢
      exact advanceCur_stop l' l'.length (s.cur + 1) (by omega) hlt

theorem pop_cap (s : SearchBuffer) : (s.pop).2.cap = s.cap := rfl

theorem has_next_iff (s : SearchBuffer) :
    s.has_next = true ↔ s.cur < s.data.length := by
  simp [SearchBuffer.has_next]

theorem reachable_inv {cap : Nat} {s : SearchBuffer} (h : Reachable cap s) :
    s.cap = cap ∧ Inv s := by
  induction h with
  | init => exact ⟨rfl, inv_mkBuffer cap⟩
  | ins id dist hid hr ih =>
    exact ⟨by rw [insert_cap]; exact ih.1, inv_insert _ _ _ hid ih.2⟩
  | pop hr hn ih =>
    refine ⟨by rw [pop_cap]; exact ih.1, ?_⟩
    exact (pop_facts _ ih.2 ((has_next_iff _).mp hn)).2.2.2.2.2.2

end saqlib
namespace saqlib

/-! ## Claim theorems: beam buffer -/

/-- C1: starting from a fresh buffer of any capacity `C ≥ 1`, after any
sequence of `insert` operations (ids with the checked bit clear) and `pop`
operations (`pop` called only when `has_next()` is true), the entries at
indices `[0, size)` are non-decreasing by distance and `size ≤ C`. -/
theorem beam_sorted_and_bounded (C : Nat) (s : SearchBuffer) (hC : 1 ≤ C)
    (h : Reachable C s) : SortedByDist s.data ∧ s.data.length ≤ C := by
  obtain ⟨hcap, hs, hle, _⟩ := reachable_inv h
  exact ⟨hs, hcap ▸ hle⟩

/-- Witness for C1 at capacity 2 after one insert. -/
theorem beam_sorted_and_bounded_witness :
    SortedByDist sIns1.data ∧ sIns1.data.length ≤ 2 :=
  beam_sorted_and_bounded 2 sIns1 (by decide)
    (Reachable.ins 5 1 (by decide) Reachable.init)

/-- C2: in every reachable state with `has_next()` true, `pop()` returns the
id of the unchecked entry with the smallest distance (the entry at `cur`),
with the checked bit clear in the returned value; it equals what `next_id()`
returned immediately before; afterwards the popped entry's stored id has the
checked bit set and `cur` has advanced past every already-checked entry
(all entries below the new `cur` are checked and the entry at the new `cur`,
when it exists, is unchecked). -/
theorem pop_returns_min_unchecked (C : Nat) (s : SearchBuffer)
    (h : Reachable C s) (hn : s.has_next = true) :
    (s.pop).1 = s.next_id ∧
    isChecked (s.pop).1 = false ∧
    (s.pop).1 = (nth s.data s.cur).id ∧
    (∀ j, j < s.data.length → isChecked (nth s.data j).id = false →
      (nth s.data s.cur).distance ≤ (nth s.data j).distance) ∧
    isChecked (nth (s.pop).2.data s.cur).id = true ∧
    s.cur < (s.pop).2.cur ∧
    (∀ i, i < (s.pop).2.cur → isChecked (nth (s.pop).2.data i).id = true) ∧
    ((s.pop).2.cur < (s.pop).2.data.length →
      isChecked (nth (s.pop).2.data (s.pop).2.cur).id = false) := by
  have hcur := (has_next_iff s).mp hn
  obtain ⟨hf1, hf2, hf3, hf4, hf5, hf6, hInv⟩ :=
    pop_facts s (reachable_inv h).2 hcur
  refine ⟨hf1, hf2, rfl, hf3, ?_, hf6, hInv.2.2.2.1, hInv.2.2.2.2⟩
  rw [hf5]
  exact isChecked_setChecked _

/-- Witness for C2 on the scenario-S3 state (three inserts, capacity 4). -/
theorem pop_returns_min_unchecked_witness :
    (SearchBuffer.pop sS3a).1 = SearchBuffer.next_id sS3a ∧
    isChecked (SearchBuffer.pop sS3a).1 = false ∧
    (SearchBuffer.pop sS3a).1 = (nth sS3a.data sS3a.cur).id ∧
    (∀ j, j < sS3a.data.length → isChecked (nth sS3a.data j).id = false →
      (nth sS3a.data sS3a.cur).distance ≤ (nth sS3a.data j).distance) ∧
    isChecked (nth (SearchBuffer.pop sS3a).2.data sS3a.cur).id = true ∧
    sS3a.cur < (SearchBuffer.pop sS3a).2.cur ∧
    (∀ i, i < (SearchBuffer.pop sS3a).2.cur →
      isChecked (nth (SearchBuffer.pop sS3a).2.data i).id = true) ∧
    ((SearchBuffer.pop sS3a).2.cur < (SearchBuffer.pop sS3a).2.data.length →
      isChecked (nth (SearchBuffer.pop sS3a).2.data
        (SearchBuffer.pop sS3a).2.cur).id = false) :=
  pop_returns_min_unchecked 4 sS3a
    (Reachable.ins 3 3 (by decide)
      (Reachable.ins 2 2 (by decide)
        (Reachable.ins 1 1 (by decide) Reachable.init)))
    (by decide)

/-- Counterexample to C3 as stated: a full capacity-1 buffer holding
`(1, 5.0)`; inserting `(2, 5.0)` — `dist = top_dist()`, so the claim demands
no effect — replaces the stored entry, because `is_full(dist)` tests
`dist > top_dist()` strictly. -/
theorem insert_at_top_dist_modifies :
    sFull1.data.length = sFull1.cap ∧ sFull1.topDist ≤ 5 ∧
    SearchBuffer.insert sFull1 2 5 ≠ sFull1 := by decide

/-- C3 (amended): for every full `SearchBuffer`, `insert(id, dist)` with
`dist` strictly greater than `top_dist()` returns with no effect; at the
boundary `dist == top_dist()` the insert proceeds (see the
counterexample). -/
theorem insert_rejected_above_top_dist (s : SearchBuffer) (id : PID) (dist : ℚ)
    (hfull : s.data.length = s.cap) (hgt : s.topDist < dist) :
    s.insert id dist = s := by
  apply insert_of_full
  rw [SearchBuffer.isFullD]
  exact decide_eq_true hgt

/-- Witness for the amended C3: the full capacity-1 buffer rejects
`(9, 6.0)` unchanged. -/
theorem insert_rejected_above_top_dist_witness :
    SearchBuffer.insert sFull1 9 6 = sFull1 :=
  insert_rejected_above_top_dist sFull1 9 6 (by decide) (by decide)

/-- C4 (exhibiting the code bug): after inserting `(5, 1.0)` into a fresh
capacity-2 buffer and popping it (a legal `pop`, `has_next` was true),
`copy_results` writes the stored id verbatim: `2147483653 = 5 + 2^31`, whose
high (checked) bit is set — not the masked id `5` the claim requires. -/
theorem copy_results_leaks_checked_bit :
    SearchBuffer.has_next sIns1 = true ∧
    (SearchBuffer.pop sIns1).1 = 5 ∧
    SearchBuffer.copy_results sPopped = [2147483653] ∧
    isChecked 2147483653 = true ∧
    (2147483653 : Nat) = 5 + 2 ^ 31 := by decide

/-- C5: in every reachable state, inserting a distance strictly smaller than
`data[cur].distance` (and not rejected) sets `cur` to the index of the newly
inserted entry (the binary-search position, which then stores the new
candidate); and the literal scenario: capacity 4, insert
`(1,1.0) (2,2.0) (3,3.0)`, pop → 1, insert `(4,0.5)`; then `next_id  = 4`
and subsequent pops yield 4, 2, 3. -/
theorem insert_before_cursor_resets_cur :
    (∀ (C : Nat) (s : SearchBuffer) (id : PID) (dist : ℚ),
      Reachable C s → s.cur < s.data.length →
      dist < (nth s.data s.cur).distance → ¬ s.isFullD dist = true →
      (s.insert id dist).cur = SearchBuffer.binarySearch s.data dist ∧
      nth (s.insert id dist).data (SearchBuffer.binarySearch s.data dist) =
        ⟨id, dist⟩) ∧
    (SearchBuffer.next_id sS3b = 4 ∧ (SearchBuffer.pop sS3a).1 = 1 ∧
     (SearchBuffer.pop sS3b).1 = 4 ∧
     (SearchBuffer.pop (SearchBuffer.pop sS3b).2).1 = 2 ∧
     (SearchBuffer.pop (SearchBuffer.pop (SearchBuffer.pop sS3b).2).2).1 = 3) := by
  constructor
  · intro C s id dist hr hcur hdlt hnf
    obtain ⟨_, hs, hcap, hcurI, hchk, hunchk⟩ := reachable_inv hr
    obtain ⟨hB, hA, hbsle⟩ := binarySearch_spec dist hs
    set lo := SearchBuffer.binarySearch s.data dist with hlo
    have hlos : lo ≤ s.cur := by
      by_contra hgt
      push_neg at hgt
      exact lt_asymm hdlt (hB s.cur hgt)
    constructor
    · rw [insert_cur_of_not_full s id dist hnf]
      split
      · rfl
      · omega
    · rw [insert_data_of_not_full s id dist hnf]
      rw [nth_take _ _ _ (by omega), nth_insertAt_self _ _ _ hbsle]
  · decide

/-- Witness for the universally quantified part of C5: inserting `(4, 0.5)`
into the scenario-S3 state lands at index 0 and resets the cursor there. -/
theorem insert_before_cursor_resets_cur_witness :
    (SearchBuffer.insert sS3a 4 (mkRat 1 2)).cur =
      SearchBuffer.binarySearch sS3a.data (mkRat 1 2) ∧
    nth (SearchBuffer.insert sS3a 4 (mkRat 1 2)).data
      (SearchBuffer.binarySearch sS3a.data (mkRat 1 2)) = ⟨4, mkRat 1 2⟩ :=
  insert_before_cursor_resets_cur.1 4 sS3a 4 (mkRat 1 2)
    (Reachable.ins 3 3 (by decide)
      (Reachable.ins 2 2 (by decide)
        (Reachable.ins 1 1 (by decide) Reachable.init)))
    (by decide) (by decide) (by decide)

/-- C10: `resize(C')` updates the capacity (the fresh allocation holds
`C'+1` value-initialized slots) but leaves `size_` and `cur_` untouched —
it does not behave like `clear()` — so immediately after `resize`,
`has_next()` can still return true even though the prior contents were
discarded (concrete part: a capacity-2 buffer holding one candidate, resized
to 5, still reports `has_next`, over freshly zeroed storage). -/
theorem resize_preserves_size_and_cur :
    (∀ (s : SearchBuffer) (C : Nat),
      (SearchBuffer.resize s C).cap = C ∧
      (SearchBuffer.resize s C).data.length = s.data.length ∧
      (SearchBuffer.resize s C).cur = s.cur ∧
      SearchBuffer.has_next (SearchBuffer.resize s C) = SearchBuffer.has_next s) ∧
    (SearchBuffer.has_next (SearchBuffer.resize sC10 5) = true ∧
     (SearchBuffer.resize sC10 5).data ≠ sC10.data) := by
  constructor
  · intro s C
    refine ⟨rfl, by simp [SearchBuffer.resize], rfl, ?_⟩
    simp [SearchBuffer.has_next, SearchBuffer.resize]
  · decide

end saqlib
namespace saqlib

/-! ## Helper lemmas: estimator evaluation -/

theorem sumSq_vsub_zero (l : List ℚ) :
    sumSq (vsub (List.replicate l.length 0) l) = sumSq l := by
  induction l with
  | nil => rfl
  | cons a t ih =>
    have h0 : ((0 : ℚ) - a) * (0 - a) = a * a := by ring
    simp only [List.length_cons, List.replicate_succ, vsub,
      List.zipWith_cons_cons] at ih ⊢
    simp only [sumSq, List.map_cons, List.sum_cons] at ih ⊢
    rw [h0, ih]

theorem prepare_l2 (e : CaqCluEstimator) (c : CAQClusterData)
    (hip : CaqCluEstimator.isIpDist e = false) :
    CaqCluEstimator.prepare e c =
      { e with curr_cluster := c,
               lut := ⟨vsub e.query_data c.centroid⟩,
               q_l2sqr := sumSq (vsub e.query_data c.centroid) } := by
  have hip' : CaqCluEstimator.isIpDist { e with curr_cluster := c } = false := hip
  simp only [CaqCluEstimator.prepare]
  rw [if_neg (by rw [hip']; simp)]
  rfl

theorem compAccurateDist_b0_l2 (E : CaqCluEstimator) (v : Nat)
    (hB : E.num_bits = 0) (hip : CaqCluEstimator.isIpDist E = false) :
    (CaqCluEstimator.compAccurateDist E v).2 =
      E.curr_cluster.factor_o_l2norm (v / KFastScanSize) (v % KFastScanSize) *
        E.curr_cluster.factor_o_l2norm (v / KFastScanSize) (v % KFastScanSize) +
      E.q_l2sqr := by
  simp only [CaqCluEstimator.compAccurateDist]
  rw [if_pos hB, if_neg (by rw [hip]; simp)]

/-! ## Claim theorems: estimators and aligned memory -/

/-- Counterexample to C6 as stated: on a `B = 1`, `D = 64` estimator, a
`compFastDist` call with a null output pointer leaves `fast_bitsum`
unchanged at 0, although the claim demands an increase by
`32·D = 2048` for every call: the counter update sits after the
null-pointer early return. -/
theorem compFastDist_null_out_skips_bitsum :
    estC6.num_bits = 1 ∧ estC6.fast_bitsum = 0 ∧
    (CaqCluEstimator.compFastDist estC6 0 false).1.fast_bitsum = 0 ∧
    KFastScanSize * estC6.num_dim_padded = 2048 := ⟨rfl, rfl, rfl, rfl⟩

/-- C6 (amended): for `B ≥ 1`, `compFastDist` increases `fast_bitsum` by
exactly `32·D` when the output pointer is non-null, and leaves it unchanged
when the output pointer is null. -/
theorem compFastDist_bitsum_iff_out (e : CaqCluEstimator) (blk : Nat)
    (hB : 1 ≤ e.num_bits) :
    (CaqCluEstimator.compFastDist e blk true).1.fast_bitsum =
      e.fast_bitsum + KFastScanSize * e.num_dim_padded ∧
    (CaqCluEstimator.compFastDist e blk false).1.fast_bitsum = e.fast_bitsum := by
  have hne : ¬ e.num_bits = 0 := by omega
  constructor
  · simp [CaqCluEstimator.compFastDist, hne]
  · simp [CaqCluEstimator.compFastDist, hne]

/-- Witness for the amended C6 on the concrete `B = 1`, `D = 64`
estimator. -/
theorem compFastDist_bitsum_iff_out_witness :
    (CaqCluEstimator.compFastDist estC6 0 true).1.fast_bitsum =
      estC6.fast_bitsum + KFastScanSize * estC6.num_dim_padded ∧
    (CaqCluEstimator.compFastDist estC6 0 false).1.fast_bitsum =
      estC6.fast_bitsum :=
  compFastDist_bitsum_iff_out estC6 0 (by decide)

/-- Counterexample to C7 as stated: L2² mode, `B = 0`, zero query `[0]`,
cluster centroid `[1]`, stored norm `x = 2`. The claim demands
`comp_accurate_dist = |x|² = 4` for every cluster regardless of its
centroid, but the code returns `x² + |q − c|² = 4 + 1 = 5`, because in L2²
mode `q_l2sqr` is the squared norm of the centroid-subtracted query. -/
theorem accurate_dist_zero_query_counterexample :
    estC7.num_bits = 0 ∧ CaqCluEstimator.isIpDist estC7 = false ∧
    estC7.query_data = [0] ∧ cluC7.centroid = [1] ∧
    cluC7.factor_o_l2norm 0 0 = 2 ∧
    (CaqCluEstimator.compAccurateDist (CaqCluEstimator.prepare estC7 cluC7) 0).2 = 5 ∧
    (5 : ℚ) ≠ 2 * 2 + 0 := by
  have hd1 : ¬ (DistType.L2Sqr = DistType.IP) := by decide
  have hd2 : ¬ (DistType.L2Sqr = DistType.Any) := by decide
  refine ⟨rfl, by decide, rfl, rfl, rfl, ?_, by norm_num⟩
  norm_num [CaqCluEstimator.prepare, CaqCluEstimator.compAccurateDist,
    CaqCluEstimator.isIpDist, estC7, cluC7, CaqCluEstimator.mkEstimator,
    Lut.prepare, Lut.getQL2Sqr, vsub, sumSq, KFastScanSize, hd1, hd2]

/-- C7 (amended): in L2² mode with `B = 0` and a zero query, after
`prepare(cluster)`, `compAccurateDist` returns `x² + |c|²` where `x` is the
vector's stored centroid-relative norm and `c` the cluster centroid
(`q_l2sqr = |0 − c|² = |c|²`); this equals `|x|²` exactly when the centroid
is zero. -/
theorem accurate_dist_zero_query (e : CaqCluEstimator) (c : CAQClusterData)
    (v : Nat) (hB : e.num_bits = 0)
    (hip : CaqCluEstimator.isIpDist e = false)
    (hq : e.query_data = List.replicate c.centroid.length 0) :
    (CaqCluEstimator.compAccurateDist (CaqCluEstimator.prepare e c) v).2 =
      c.factor_o_l2norm (v / KFastScanSize) (v % KFastScanSize) *
        c.factor_o_l2norm (v / KFastScanSize) (v % KFastScanSize) +
      sumSq c.centroid := by
  rw [prepare_l2 e c hip]
  rw [compAccurateDist_b0_l2
    { e with curr_cluster := c,
             lut := ⟨vsub e.query_data c.centroid⟩,
             q_l2sqr := sumSq (vsub e.query_data c.centroid) } v hB hip]
  show c.factor_o_l2norm (v / KFastScanSize) (v % KFastScanSize) *
      c.factor_o_l2norm (v / KFastScanSize) (v % KFastScanSize) +
      sumSq (vsub e.query_data c.centroid) = _
  rw [hq, sumSq_vsub_zero]

/-- Witness for the amended C7: `D = 2` zero query, centroid `[2, 1]`,
stored norm 3. -/
theorem accurate_dist_zero_query_witness :
    (CaqCluEstimator.compAccurateDist (CaqCluEstimator.prepare estC7b cluC7b) 0).2 =
      cluC7b.factor_o_l2norm (0 / KFastScanSize) (0 % KFastScanSize) *
        cluC7b.factor_o_l2norm (0 / KFastScanSize) (0 % KFastScanSize) +
      sumSq cluC7b.centroid :=
  accurate_dist_zero_query estC7b cluC7b 0 rfl (by decide) rfl

/-- C8 (exhibiting the code bug): `align_mm<64, T>(8)` with
`sizeof(T) = 4` allocates 32 bytes (rounded up to 64) but memsets only
`size = 8` bytes; byte 8 — inside the `N · sizeof(T) = 32` bytes the claim
requires zeroed — still holds the allocator's garbage (here 1). -/
theorem align_mm_zeroes_only_size_bytes :
    (align_mm 64 4 8 (fun _ => 1)).2 8 = 1 ∧
    8 < 8 * 4 ∧ (1 : Nat) ≠ 0 ∧
    (align_mm 64 4 8 (fun _ => 1)).1 = 64 := by decide

/-- C9: `CaqCluEstimatorSingle::prepare` in inner-product mode always throws
`"not implemented yet"` before any preparation (only the cluster pointer,
already stored, changes), surfacing the error to the caller; in L2² mode it
prepares the base implementation on the centroid-subtracted query and
returns normally. -/
theorem single_clu_prepare_ip_unimplemented (s : SingleClu) (c : CAQClusterData) :
    (s.impl.isIpDist = true →
      SingleClu.prepare s c =
        ({ s with curr_cluster := c }, some notImplementedMsg)) ∧
    (s.impl.isIpDist = false →
      SingleClu.prepare s c =
        ({ s with
            curr_cluster := c
            impl := s.impl.implPrepare (vsub s.query_data c.centroid) }, none)) := by
  constructor
  · intro hip
    have hip' : ({ s with curr_cluster := c } : SingleClu).impl.isIpDist = true := hip
    simp only [SingleClu.prepare]
    rw [if_pos hip']
  · intro hip
    have hip' : ({ s with curr_cluster := c } : SingleClu).impl.isIpDist = false := hip
    simp only [SingleClu.prepare]
    rw [if_neg (by rw [hip']; simp)]

/-- Witness for C9: the concrete IP-mode single-vector cluster estimator
fails with the unimplemented marker. -/
theorem single_clu_prepare_ip_unimplemented_witness :
    SingleClu.prepare scluIP emptyCluster =
      ({ scluIP with curr_cluster := emptyCluster }, some notImplementedMsg) :=
  (single_clu_prepare_ip_unimplemented scluIP emptyCluster).1 (by decide)

end saqlib
